import Mathlib

/-!
# Verification of `featurex.stimuli.text` (pliers)

A shallow embedding of `src/featurex/stimuli/text.py`: the `TextStim`,
`DynamicTextStim` and `ComplexTextStim` classes, their file ingestion
(`_from_file`), segmentation (`from_text`) and extraction (`extract`)
methods, together with theorems checking the natural-language
specification against this embedding.

Python values flowing through the code (strings, floats, pandas NaN,
None) are modelled by `PyVal`; Python exceptions by `PyErr`; the
filesystem seen by `open()` by a partial map `FS`.  The external
libraries the module calls (`pandas.read_csv`, `re.findall`, `nltk`)
are modelled at their call sites: the tab-separated parse as a
function over the file's rows, `re.findall` on a caller-supplied
pattern as an opaque function parameter, `nltk` as an optional record
of tokenizer functions, and the module's literal fallback regex by a
small executable regex interpreter.
-/

deriving instance DecidableEq for Except

namespace Featurex

/-- A Python value as it flows through this module: `none` is Python
`None`, `nan` is the IEEE NaN that pandas puts in empty cells, `num`
a parsed numeric cell (floats are modelled as rationals: the module
never does arithmetic on them), `str` a string. -/
inductive PyVal where
  | none
  | nan
  | num (q : Rat)
  | str (s : String)
deriving DecidableEq, Repr

/-- The Python exceptions this module can raise or swallow. -/
inductive PyErr where
  | ioError (path : String)
  | keyError (key : String)
  | typeError
  | valueError (msg : String)
  | importError (msg : String)
  | lookupError
  | attributeError (attr : String)
  | nameError (name : String)
deriving DecidableEq, Repr

/-- The filesystem seen by `open()`: `fs p = some c` means the file at
path `p` exists and reads as `c`; `none` means opening `p` raises
`IOError`. -/
def FS : Type := String → Option String

/-- `class TextStim(Stim)`: any text stimulus.  Its only attribute is
`self.text` (a `PyVal`: `None` when constructed with neither argument,
otherwise a string). -/
structure TextStim where
  text : PyVal
deriving DecidableEq, Repr

/-- `TextStim.__init__(self, filename=None, text=None)`: when
`filename is not None`, `text = open(filename).read()` (raising
`IOError` when the path is unreadable, `TypeError` when the positional
argument is not a string); then `self.text = text`. -/
def TextStim.init (fs : FS) (filename : PyVal) (text : PyVal) :
    Except PyErr TextStim :=
  match filename with
  | .none => .ok ⟨text⟩
  | .str f =>
    match fs f with
    | some contents => .ok ⟨.str contents⟩
    | Option.none => .error (.ioError f)
  | _ => .error .typeError

/-- A pandas row label, as `data.iterrows()` yields it: `pos i` is
the label `i` of the default `RangeIndex` (a Python int at row
position `i`); `val v` the cell value of a single column promoted to
the index; `tup vs` the tuple of a `MultiIndex` of several promoted
columns. -/
inductive PyLabel where
  | pos (i : Nat)
  | val (v : PyVal)
  | tup (vs : List PyVal)
deriving DecidableEq, Repr

/-- `class DynamicTextStim(TextStim)`: a text stimulus with
timing/onset information.  `__init__(self, text, order, onset=None,
duration=None)` stores all four and calls
`super().__init__(text=text)`, so `self.text = text` with no file
read.  `order` receives the `iterrows` label, a `PyLabel`. -/
structure DynamicTextStim where
  text : PyVal
  order : PyLabel
  onset : PyVal
  duration : PyVal
deriving DecidableEq, Repr

/-- An element of `ComplexTextStim.elements`: either a plain
`TextStim` (no timing attributes at all) or a `DynamicTextStim`. -/
inductive Elem where
  | plain (ts : TextStim)
  | dyn (d : DynamicTextStim)
deriving DecidableEq, Repr

/-- Python attribute access `elem.onset`: defined on a
`DynamicTextStim`, raises `AttributeError` on a plain `TextStim`,
which never sets that attribute. -/
def Elem.onsetAttr : Elem → Except PyErr PyVal
  | .plain _ => .error (.attributeError "onset")
  | .dyn d => .ok d.onset

/-- `ComplexTextStim`: a collection of text stims; `self.elements`
starts empty and is populated by `_from_file` or `from_text`. -/
structure ComplexTextStim where
  elements : List Elem
deriving DecidableEq, Repr

/-! ## File ingestion (`ComplexTextStim._from_file`)

The input file is modelled after the tab-split of its lines: a
`List (List String)`, one inner list of cell strings per line, in file
order.  `pandas.read_csv(filename, sep=chr 9, names=col_names)` is
modelled by `parseTable`: with `names=None` the first line is the
header and names the columns; with explicit `names` every line is
data.  A numeric-looking cell parses to a number, an empty cell to
NaN, anything else stays a string; a short row is padded with NaN.
When rows are wider than the names, pandas promotes the extra leading
columns to the row index, and `iterrows` yields those labels. -/

/-- Parse an optional leading minus, digits, and an optional fraction
part into a rational, as pandas does for a numeric cell. -/
def parseRat? (s : String) : Option Rat :=
  let (sign, body) :=
    match s.toList with
    | '-' :: rest => ((-1 : Rat), rest)
    | l => ((1 : Rat), l)
  let intPart := body.takeWhile (·.isDigit)
  let rest := body.drop intPart.length
  let fracPart :=
    match rest with
    | '.' :: f => some f
    | [] => some []
    | _ => Option.none
  match fracPart with
  | Option.none => Option.none
  | some f =>
    if intPart.isEmpty ∧ f.isEmpty then Option.none
    else if ¬ f.all (·.isDigit) then Option.none
    else
      let digits := intPart ++ f
      let n : Nat := digits.foldl (fun a c => a * 10 + (c.toNat - 48)) 0
      some (sign * (n : Rat) / ((10 : Rat) ^ f.length))

/-- One cell of the parsed table: empty cells become NaN, numeric
cells numbers, everything else a string. -/
def parseCell (s : String) : PyVal :=
  if s = "" then .nan
  else
    match parseRat? s with
    | some q => .num q
    | Option.none => .str s

/-- A parsed data row: its index label, and column name to value in
column order. -/
structure Row where
  label : PyLabel
  cells : List (String × PyVal)
deriving DecidableEq, Repr

/-- `name in row` / `row[name]` lookup on a pandas row. -/
def Row.get? (r : Row) (name : String) : Option PyVal :=
  (r.cells.find? (fun p => p.1 = name)).map (·.2)

/-- Pad the named part of a parsed line to the column count with NaN
(pandas fills missing trailing fields with NaN). -/
def padCells (names : List String) (cells : List String) :
    List (String × PyVal) :=
  names.zip (cells.map parseCell ++ List.replicate (names.length - cells.length) .nan)

/-- The row label built from the `nidx` leading cells pandas promotes
to the index: none promoted gives the `RangeIndex` label `i` (the row
position); one promoted column gives that cell's value; several give
the tuple of their values. -/
def labelOf (nidx : Nat) (i : Nat) (idxCells : List PyVal) : PyLabel :=
  if nidx = 0 then .pos i
  else if nidx = 1 then .val (idxCells.headD .nan)
  else .tup idxCells

/-- One parsed data row at position `i`: the `nidx` leading cells
become the index label, the remaining cells are named by `ns` in
order. -/
def rowOf (ns : List String) (nidx : Nat) (i : Nat) (cells : List String) :
    Row :=
  ⟨labelOf nidx i ((cells.take nidx).map parseCell),
   padCells ns (cells.drop nidx)⟩

/-- The data rows under column names `ns` with `nidx` promoted index
columns, positions counted from `i`. -/
def tableRows (ns : List String) (nidx : Nat) :
    Nat → List (List String) → List Row
  | _, [] => []
  | i, cells :: rest => rowOf ns nidx i cells :: tableRows ns nidx (i + 1) rest

/-- The field count of the first data row (`dflt` when there is
none), from which pandas decides how many leading columns to promote
to the index. -/
def firstWidth (rows : List (List String)) (dflt : Nat) : Nat :=
  match rows with
  | [] => dflt
  | r :: _ => r.length

/-- `pandas.read_csv` on the tab-split lines: `names = none` infers
the column names from the first line, `names = some ns` treats every
line as data under those names.  When the data rows are wider than
the column names, pandas promotes the extra *leading* columns to the
row index (one extra column: that column's values are the row labels;
several: a MultiIndex of tuples) and the names attach to the trailing
columns; rows are modelled uniformly with the width of the first data
row. -/
def parseTable (file : List (List String)) (names : Option (List String)) :
    List Row :=
  match names with
  | Option.none =>
    match file with
    | [] => []
    | header :: rest =>
      tableRows header (firstWidth rest header.length - header.length) 0 rest
  | some ns => tableRows ns (firstWidth file ns.length - ns.length) 0 file

/-- The `tod_names` dict of `_from_file`: `t`, `o`, `d` name the
`text`, `onset`, `duration` columns; any other character is a
`KeyError`. -/
def todName : Char → Except PyErr String
  | 't' => .ok "text"
  | 'o' => .ok "onset"
  | 'd' => .ok "duration"
  | c => .error (.keyError (String.mk [c]))

/-- The reserved header names: `set(tod_names.values())`. -/
def reservedNames : List String := ["text", "onset", "duration"]

/-- The header sniff of `_from_file`: the first line of the file,
split on tab, has a token among the reserved names. -/
def firstRowHasReserved (file : List (List String)) : Bool :=
  match file with
  | [] => false
  | firstRow :: _ => firstRow.any (fun tok => reservedNames.contains tok)

/-- The loop body of `_from_file`: one data row (at index `i` of
`data.iterrows()`) to one element.  `if 'onset' not in r:` builds
`TextStim(r['text'])` — the text value is passed positionally as the
`filename` argument, so `TextStim.__init__` opens it as a path.
Otherwise `duration = r.get('duration', None)`, replaced by
`default_duration` only when it `is None` (a NaN from an empty cell
is not `None`), and `DynamicTextStim(r['text'], i, r['onset'],
duration)` is built — `i` is the row's `iterrows` label. -/
def rowToElem (fs : FS) (default_duration : Option Rat) (i : PyLabel)
    (r : Row) : Except PyErr Elem :=
  match r.get? "text" with
  | Option.none => .error (.keyError "text")
  | some rtext =>
    match r.get? "onset" with
    | Option.none =>
      (TextStim.init fs rtext .none).map .plain
    | some ronset =>
      let duration : PyVal :=
        match r.get? "duration" with
        | Option.none => .none
        | some d => d
      let duration : PyVal :=
        if duration = .none then
          match default_duration with
          | some q => .num q
          | Option.none => .none
        else duration
      .ok (.dyn ⟨rtext, i, ronset, duration⟩)

/-- The list comprehension `[tod_names[x] for x in columns]`: resolve
every character of the `columns` string, in order, raising `KeyError`
on one outside `tod`. -/
def resolveNames : List Char → Except PyErr (List String)
  | [] => .ok []
  | c :: cs =>
    match todName c with
    | .error e => .error e
    | .ok n =>
      match resolveNames cs with
      | .error e => .error e
      | .ok ns => .ok (n :: ns)

/-- The `for i, r in data.iterrows()` loop of `_from_file`: the rows
in order, `i` the row's index label, one element appended per row,
any exception from the body propagating. -/
def buildElems (fs : FS) (default_duration : Option Rat) :
    List Row → Except PyErr (List Elem)
  | [] => .ok []
  | r :: rest =>
    match rowToElem fs default_duration r.label r with
    | .error e => .error e
    | .ok e =>
      match buildElems fs default_duration rest with
      | .error err => .error err
      | .ok es => .ok (e :: es)

/-- `ComplexTextStim._from_file(self, filename, columns, default_duration)`:
sniff the first line for reserved header names; resolve `col_names`
(`None` for header inference, else positionally from `columns` via
`tod_names`); parse the table; build one element per data row in row
order and append it to `self.elements`; exceptions propagate. -/
def from_file (fs : FS) (file : List (List String)) (columns : List Char)
    (default_duration : Option Rat) : Except PyErr ComplexTextStim :=
  let sniff : Except PyErr (Option (List String)) :=
    if firstRowHasReserved file then .ok Option.none
    else
      match resolveNames columns with
      | .error e => .error e
      | .ok ns => .ok (some ns)
  match sniff with
  | .error e => .error e
  | .ok col_names =>
    match buildElems fs default_duration (parseTable file col_names) with
    | .error e => .error e
    | .ok elems => .ok ⟨elems⟩

/-- The number of data rows of a file: every line but the header when
the first line holds a reserved column name, every line otherwise. -/
def numDataRows (file : List (List String)) : Nat :=
  if firstRowHasReserved file then file.tail.length else file.length

/-- The row-processing stage of `_from_file` on already-labelled and
named rows: one element per row, collected into the collection. -/
def elemsOfRows (fs : FS) (default_duration : Option Rat) (rows : List Row) :
    Except PyErr ComplexTextStim :=
  (buildElems fs default_duration rows).map ComplexTextStim.mk

/-- The parse promotes no column to the index: the first data row
(under the applicable naming — the header line's tokens, or the
`columns` characters) is no wider than the column names, so the index
is the default `RangeIndex` and every `iterrows` label is the row
position. -/
def noIndexPromotion (file : List (List String)) (columns : List Char) : Bool :=
  if firstRowHasReserved file then
    match file with
    | [] => true
    | header :: rest => firstWidth rest header.length ≤ header.length
  else firstWidth file columns.length ≤ columns.length

/-! ## A small regex interpreter

`from_text`'s fallback tokenizer applies `re.findall` with the fixed
pattern literal of the source (three alternatives built from character
classes, a greedy `+`, a greedy two-or-more repetition, and one
negative and one positive lookahead).  `RE` covers exactly those
constructs; `reMatch` is a fuelled backtracking matcher returning the
possible remainders in Python's backtracking priority order (greedy
repetitions longest-first, alternatives left-first), so its head is
the match Python commits to; `reFindall` scans left to right taking
non-overlapping matches, as `re.findall` does. -/

/-- A character class: a union of inclusive character ranges. -/
def CClass : Type := List (Char × Char)

/-- Membership in a character class. -/
def inClass (cs : CClass) (c : Char) : Bool :=
  cs.any fun p => p.1 ≤ c ∧ c ≤ p.2

/-- The regex constructs the fallback pattern uses. -/
inductive RE where
  | cls (cs : CClass)
  | seq (a b : RE)
  | alt (a b : RE)
  | plus (r : RE)
  | negLook (r : RE)
  | posLook (r : RE)

/-- Backtracking matcher: the remainders left after matching `r` at
the start of `s`, in Python's backtracking priority order (head =
the committed match).  Fuel bounds the recursion; every constructor
spends one unit and every `plus` iteration consumes at least one
character, so `s.length` plus the pattern size is always enough. -/
def reMatch : Nat → RE → List Char → List (List Char)
  | 0, _, _ => []
  | _ + 1, .cls cs, s =>
    match s with
    | [] => []
    | c :: t => if inClass cs c then [t] else []
  | f + 1, .seq a b, s => (reMatch f a s).flatMap (reMatch f b)
  | f + 1, .alt a b, s => reMatch f a s ++ reMatch f b s
  | f + 1, .plus r, s =>
    (reMatch f r s).flatMap (fun rem => reMatch f (.plus r) rem ++ [rem])
  | f + 1, .negLook r, s => if (reMatch f r s).isEmpty then [s] else []
  | f + 1, .posLook r, s => if (reMatch f r s).isEmpty then [] else [s]

/-- Two-or-more greedy repetition: one mandatory match then `plus`. -/
def RE.rep2 (r : RE) : RE := .seq r (.plus r)

/-- The scan of `re.findall`: at each position take the committed
match if any; a non-empty match is emitted and the scan resumes after
it, an empty match is emitted and the scan advances one character, no
match advances one character. -/
def scanAux : Nat → RE → List Char → List (List Char)
  | 0, _, _ => []
  | f + 1, r, s =>
    match (reMatch (s.length + 40) r s).head? with
    | some rem =>
      let k := s.length - rem.length
      if k = 0 then
        match s with
        | [] => [[]]
        | _ :: t => [] :: scanAux f r t
      else (s.take k) :: scanAux f r (s.drop k)
    | Option.none =>
      match s with
      | [] => []
      | _ :: t => scanAux f r t

/-- All non-overlapping matches of `r` in `s`, left to right. -/
def reFindall (r : RE) (s : String) : List String :=
  (scanAux (s.length + 1) r s.toList).map fun cs => String.mk cs

/-- The apostrophe character. -/
def apos : Char := '\''

/-- Class of an uppercase letter, hyphen or apostrophe. -/
def clsUpper : CClass := [('A', 'Z'), ('-', '-'), (apos, apos)]

/-- Class of a lowercase letter, hyphen or apostrophe. -/
def clsLowerHyp : CClass := [('a', 'z'), ('-', '-'), (apos, apos)]

/-- Class of an apostrophe, word character (letter, digit or
underscore) or hyphen. -/
def clsWordy : CClass :=
  [(apos, apos), ('a', 'z'), ('A', 'Z'), ('0', '9'), ('_', '_'), ('-', '-')]

/-- The fallback pattern literal of `from_text`, translated construct
by construct: first alternative, two or more uppercase
letters/hyphens/apostrophes not followed by a lowercase letter;
second, one such character then one or more lowercase
letters/hyphens/apostrophes followed by an uppercase letter; third,
one or more apostrophes, word characters or hyphens. -/
def fallbackRE : RE :=
  .alt (.seq (RE.rep2 (.cls clsUpper)) (.negLook (.cls [('a', 'z')])))
    (.alt (.seq (.cls clsUpper) (.seq (.plus (.cls clsLowerHyp))
                                      (.posLook (.cls [('A', 'Z')]))))
      (.plus (.cls clsWordy)))

/-- The fallback tokenization `re.findall(patt, text)` of `from_text`. -/
def fallbackTokens (text : String) : List String := reFindall fallbackRE text

/-! ## Segmentation (`ComplexTextStim.from_text`) -/

/-- The `tokenizer` argument: a pattern string handed to
`re.findall`, or an object with a `tokenize` method. -/
inductive Tokenizer where
  | pattern (p : String)
  | obj (tokenize : String → List String)

/-- The optional `nltk` dependency: whether the `punkt` resource is
already installed (otherwise `nltk.download` fetches it), and the
`word_tokenize` and `sent_tokenize` functions taking the text and the
language. -/
structure Nltk where
  punktInstalled : Bool
  word_tokenize : String → String → List String
  sent_tokenize : String → String → List String

/-- Python's `s.startswith(pre)`. -/
def pyStartswith (s pre : String) : Bool :=
  pre.toList.isPrefixOf s.toList

/-- The body of `from_text`'s outer `try`: import `nltk` (an
`ImportError` when it is unavailable), find or download `punkt`, then
tokenize per `unit` — `word_tokenize` for `'word'`, `sent_tokenize`
for a unit starting with `'sent'`, otherwise
`raise ValueError("unit must be either 'word' or 'sentence'")`. -/
def tryBody (nltk : Option Nltk) (text unit language : String) :
    Except PyErr (List String) :=
  match nltk with
  | Option.none => .error (.importError "No module named nltk")
  | some n =>
    if unit = "word" then .ok (n.word_tokenize text language)
    else if pyStartswith unit "sent" then .ok (n.sent_tokenize text language)
    else .error (.valueError "unit must be either 'word' or 'sentence'")

/-- The message of the `ImportError` raised by `from_text`'s `except`
branch (the source splits the literal over three lines, leaving a
double space before the quoted word). -/
def importMsg : String :=
  "If no tokenizer is passed and nltk is not installed, unit must be set to  'word'."

/-- `ComplexTextStim.from_text(text, unit='word', tokenizer=None,
language='english')`.  `findall` models `re.findall` on a
caller-supplied pattern string (the external regex library).  With an
explicit tokenizer, tokens come from `re.findall` or from
`tokenizer.tokenize(text)`.  Without one, the `try` body runs; the
bare `except:` catches any failure it raises — including the
`ValueError` for a bad `unit` — and then either raises `ImportError`
(when `unit != 'word'`) or falls back to `re.findall` with the
built-in pattern.  Finally one plain `TextStim(text=t)` per token is
appended, in token order, to a fresh collection. -/
def from_text (findall : String → String → List String) (nltk : Option Nltk)
    (text : String) (unit : String) (tokenizer : Option Tokenizer)
    (language : String) : Except PyErr ComplexTextStim :=
  let tokensE : Except PyErr (List String) :=
    match tokenizer with
    | some (.pattern p) => .ok (findall p text)
    | some (.obj tk) => .ok (tk text)
    | Option.none =>
      match tryBody nltk text unit language with
      | .ok toks => .ok toks
      | .error _ =>
        if unit ≠ "word" then .error (.importError importMsg)
        else .ok (fallbackTokens text)
  match tokensE with
  | .error e => .error e
  | .ok tokens => .ok ⟨tokens.map (fun t => .plain ⟨.str t⟩)⟩

/-! ## Extraction

`featurex.core` (`Value`, `Event`, `Timeline`, `Stim`) is not among
the repository files available here; those classes are modelled from
the spec.  Extractors themselves are external black boxes: an
extractor carries a `name`, a declared target class name
(`ext.target.__name__`), and its `apply` behaviour — a single value
when applied to one element, a sequence of events when applied to a
whole collection. -/

/-- An extractor's output value: opaque to this module, modelled as a
string. -/
def Val : Type := String
deriving instance DecidableEq, Repr for Val

/-- Modelled from the spec: an `Event` of `featurex.core` holds one
onset (possibly `None`) and a mapping of extractor names to values,
in insertion order. -/
structure Event where
  onset : PyVal
  values : List (String × Val)
deriving DecidableEq, Repr

/-- Insert-or-overwrite into an insertion-ordered string-keyed
mapping, as assignment into a Python dict: an existing key keeps its
position and takes the new value, a new key is appended. -/
def updateAssoc (l : List (String × Val)) (k : String) (v : Val) :
    List (String × Val) :=
  if l.any (fun p => p.1 = k) then
    l.map (fun p => if p.1 = k then (k, v) else p)
  else l ++ [(k, v)]

/-- Modelled from the spec: `Event.add_value` records one
(extractor-name, value) pair in the event's mapping. -/
def Event.add_value (ev : Event) (k : String) (v : Val) : Event :=
  ⟨ev.onset, updateAssoc ev.values k v⟩

/-- Modelled from the spec: a `Timeline` of `featurex.core` is an
ordered sequence of events. -/
structure Timeline where
  events : List Event
deriving DecidableEq, Repr

/-- Modelled from the spec: merging an incoming event into the first
existing event with an equal onset — the value mappings are unioned,
the incoming event's value winning on a colliding key. -/
def mergeList : List Event → Event → List Event
  | [], ev => [ev]
  | e0 :: rest, ev =>
    if e0.onset = ev.onset then
      ⟨e0.onset, ev.values.foldl (fun vs p => updateAssoc vs p.1 p.2) e0.values⟩ :: rest
    else e0 :: mergeList rest ev

/-- Modelled from the spec: `Timeline.add_event(event, merge)` —
with `merge = false` append unconditionally; with `merge = true`
merge into an existing event with an equal onset (a null onset
matches only a null onset), appending when there is none. -/
def Timeline.add_event (tl : Timeline) (ev : Event) (merge : Bool) : Timeline :=
  if merge then ⟨mergeList tl.events ev⟩ else ⟨tl.events ++ [ev]⟩

/-- An extractor, the external collaborator of `extract`: its `name`,
its declared target's class name (`ext.target.__name__`), and its
`apply` behaviour on a single element and on a whole collection. -/
structure Extractor where
  name : String
  targetName : String
  applyElem : Elem → Val
  applyColl : ComplexTextStim → List Event

/-- `Value(stim, extractor, vals)` of `featurex.core`, modelled from
the spec as a record of its constructor arguments. -/
structure Value where
  stim : TextStim
  extractor : Extractor
  vals : List (String × Val)

/-- `TextStim.extract(self, extractors)`: `vals = {}`; for each `e`
in `extractors`, `vals[e.name] = e.apply(self)`; then
`return Value(self, e, vals)` — `e` is the loop variable, so the
`Value` is built with the **last** extractor, and an empty list
leaves `e` unbound (`NameError`). -/
def TextStim.extract (self : TextStim) (extractors : List Extractor) :
    Except PyErr Value :=
  let vals := extractors.foldl
    (fun acc e => updateAssoc acc e.name (e.applyElem (.plain self))) []
  match extractors.getLast? with
  | Option.none => .error (.nameError "e")
  | some e => .ok ⟨self, e, vals⟩

/-- The inner `for elem in self.elements:` loop of
`ComplexTextStim.extract` for an element-level extractor: build
`Event(onset=elem.onset)` — an `AttributeError` on a plain
`TextStim`, which has no `onset` — attach the value
`ext.apply(elem)` under the extractor's name, and fold the event into
the timeline. -/
def elemLoop (merge_events : Bool) (ext : Extractor) (tl : Timeline) :
    List Elem → Except PyErr Timeline
  | [] => .ok tl
  | elem :: rest =>
    match elem.onsetAttr with
    | .error e => .error e
    | .ok onset =>
      let event : Event := ⟨onset, []⟩
      let event := event.add_value ext.name (ext.applyElem elem)
      elemLoop merge_events ext (tl.add_event event merge_events) rest

/-- One iteration of the outer `for ext in extractors:` loop of
`ComplexTextStim.extract`: if the extractor's target class name
equals `'ComplexTextStim'` apply it to the whole collection and fold
the returned events in; otherwise run the element loop. -/
def extractStep (self : ComplexTextStim) (merge_events : Bool)
    (tl : Timeline) (ext : Extractor) : Except PyErr Timeline :=
  if ext.targetName = "ComplexTextStim" then
    .ok ((ext.applyColl self).foldl
      (fun t ev => t.add_event ev merge_events) tl)
  else elemLoop merge_events ext tl self.elements

/-- The outer extractor loop: each extractor in order, threading the
timeline, exceptions propagating. -/
def runExtractors (self : ComplexTextStim) (merge_events : Bool)
    (tl : Timeline) : List Extractor → Except PyErr Timeline
  | [] => .ok tl
  | ext :: rest =>
    match extractStep self merge_events tl ext with
    | .error e => .error e
    | .ok tl2 => runExtractors self merge_events tl2 rest

/-- `ComplexTextStim.extract(self, extractors, merge_events=True)`:
start from a fresh `Timeline` and run every extractor over it in
order. -/
def ComplexTextStim.extract (self : ComplexTextStim)
    (extractors : List Extractor) (merge_events : Bool) :
    Except PyErr Timeline :=
  runExtractors self merge_events ⟨[]⟩ extractors

/-! ## Concrete fixtures for the theorems -/

/-- A filesystem with no readable files. -/
def fsEmpty : FS := fun _ => Option.none

/-- A filesystem where only the path `hello` is readable, with
contents `stuff`. -/
def fsHello : FS := fun p => if p = "hello" then some "stuff" else Option.none

/-- A two-line file: header line `text`, data line `hello`. -/
def fileHeaderText : List (List String) := [["text"], ["hello"]]

/-- A headerless one-line file: text `word`, onset `0.5`, duration
present but empty. -/
def fileEmptyDuration : List (List String) := [["word", "0.5", ""]]

/-- A stub `re.findall` for calls whose path never reaches it. -/
def findall0 : String → String → List String := fun _ _ => []

/-- A stub available `nltk` with `punkt` installed and tokenizers
that return nothing. -/
def nltkStub : Nltk := ⟨true, fun _ _ => [], fun _ _ => []⟩

/-- An element-level extractor stub (target class `TextStim`). -/
def elemExtractor : Extractor := ⟨"ext", "TextStim", fun _ => "v", fun _ => []⟩

/-- An element-level extractor named `a`. -/
def exA : Extractor := ⟨"a", "TextStim", fun _ => "1", fun _ => []⟩

/-- An element-level extractor named `b`. -/
def exB : Extractor := ⟨"b", "TextStim", fun _ => "2", fun _ => []⟩

/-! ## Theorems -/

/-- Claim C1 (code bug): in `_from_file`, a data row with no onset
field does **not** yield a plain `TextStim` storing the row's text:
`TextStim(r['text'])` passes the text positionally as the `filename`
argument, so the constructor opens the text as a path — raising
`IOError` when no such file exists (first conjunct), and storing that
file's contents instead of the text when one does (second
conjunct). -/
theorem from_file_text_passed_as_filename :
    from_file fsEmpty fileHeaderText ['t', 'o', 'd'] Option.none =
      .error (.ioError "hello") ∧
    from_file fsHello fileHeaderText ['t', 'o', 'd'] Option.none =
      .ok ⟨[.plain ⟨.str "stuff"⟩]⟩ := by
  constructor <;> rfl

/-- Claim C2 (code bug): in `_from_file`, a present-but-empty
duration cell parses to NaN, which is not `None`, so
`default_duration` is never substituted: with `default_duration =
1.5` the element's duration is NaN rather than `1.5` (first
conjunct), and without a default it is NaN rather than `None` (second
conjunct). -/
theorem from_file_empty_duration_is_nan :
    parseCell "0.5" = .num (1 / 2) ∧
    from_file fsEmpty fileEmptyDuration ['t', 'o', 'd'] (some (3 / 2)) =
      .ok ⟨[.dyn ⟨.str "word", .pos 0, parseCell "0.5", .nan⟩]⟩ ∧
    from_file fsEmpty fileEmptyDuration ['t', 'o', 'd'] Option.none =
      .ok ⟨[.dyn ⟨.str "word", .pos 0, parseCell "0.5", .nan⟩]⟩ := by
  refine ⟨?_, rfl, rfl⟩
  have h : parseCell "0.5" =
      .num ((1 : Rat) * ((5 : Nat) : Rat) / ((10 : Rat) ^ (1 : Nat))) := rfl
  rw [h]
  norm_num

/-- Claim C3 (code bug): `from_text` with no tokenizer and a unit
that is neither `word` nor starts with `sent` raises the
`ValueError` inside a `try` whose bare `except:` swallows it; the
call then fails with the (here misleading) `ImportError`, even though
`nltk` is importable. -/
theorem from_text_bad_unit_raises_import_error :
    from_text findall0 (some nltkStub) "hello" "char" Option.none "english" =
      .error (.importError importMsg) := by
  rfl

/-- Claim C9: with no external resource and `unit = 'word'`, the
built-in fallback regex tokenizer splits `It's a wonderful life.`
into exactly `It's`, `a`, `wonderful`, `life` — the trailing period
excluded. -/
theorem from_text_fallback_wonderful_life :
    from_text findall0 Option.none "It's a wonderful life." "word"
        Option.none "english" =
      .ok ⟨[.plain ⟨.str "It's"⟩, .plain ⟨.str "a"⟩,
            .plain ⟨.str "wonderful"⟩, .plain ⟨.str "life"⟩]⟩ := by
  rfl

/-! ### Lemmas about `updateAssoc` and the `TextStim.extract` fold -/

theorem mem_keys_updateAssoc_self (l : List (String × Val)) (k : String) (v : Val) :
    k ∈ (updateAssoc l k v).map Prod.fst := by
  unfold updateAssoc
  split
  · next h =>
    obtain ⟨p, hp, hpk⟩ := List.any_eq_true.mp h
    simp only [decide_eq_true_eq] at hpk
    simp only [List.map_map, List.mem_map, Function.comp]
    exact ⟨p, hp, by simp [hpk]⟩
  · simp

theorem mem_keys_updateAssoc_of_mem (l : List (String × Val)) (k' k : String)
    (v : Val) (h : k' ∈ l.map Prod.fst) :
    k' ∈ (updateAssoc l k v).map Prod.fst := by
  obtain ⟨p, hp, rfl⟩ := List.mem_map.mp h
  unfold updateAssoc
  split
  · simp only [List.map_map, List.mem_map, Function.comp]
    refine ⟨p, hp, ?_⟩
    by_cases hc : p.1 = k <;> simp [hc]
  · simp only [List.map_append, List.mem_append]
    exact Or.inl (List.mem_map.mpr ⟨p, hp, rfl⟩)

theorem updateAssoc_not_mem (l : List (String × Val)) (k : String) (v : Val)
    (h : k ∉ l.map Prod.fst) : updateAssoc l k v = l ++ [(k, v)] := by
  unfold updateAssoc
  rw [if_neg]
  intro hc
  obtain ⟨p, hp, hpk⟩ := List.any_eq_true.mp hc
  simp only [decide_eq_true_eq] at hpk
  exact h (List.mem_map.mpr ⟨p, hp, hpk⟩)

theorem keys_foldl_updateAssoc_preserved (ts : TextStim) (xs : List Extractor)
    (acc : List (String × Val)) (k : String) (h : k ∈ acc.map Prod.fst) :
    k ∈ (xs.foldl (fun a e => updateAssoc a e.name (e.applyElem (.plain ts)))
      acc).map Prod.fst := by
  induction xs generalizing acc with
  | nil => simpa using h
  | cons x xs ih => exact ih _ (mem_keys_updateAssoc_of_mem _ _ _ _ h)

theorem keys_foldl_updateAssoc (ts : TextStim) (l : List Extractor)
    (acc : List (String × Val)) :
    ∀ e ∈ l, e.name ∈
      (l.foldl (fun a x => updateAssoc a x.name (x.applyElem (.plain ts)))
        acc).map Prod.fst := by
  induction l generalizing acc with
  | nil => intro e he; simp at he
  | cons x xs ih =>
    intro e he
    rcases List.mem_cons.mp he with rfl | hxs
    · exact keys_foldl_updateAssoc_preserved ts xs _ e.name
        (mem_keys_updateAssoc_self acc e.name _)
    · exact ih _ e hxs

theorem foldl_updateAssoc_nodup (ts : TextStim) (l : List Extractor)
    (acc : List (String × Val))
    (hd : ∀ e ∈ l, e.name ∉ acc.map Prod.fst)
    (hn : (l.map (fun e => e.name)).Nodup) :
    l.foldl (fun a x => updateAssoc a x.name (x.applyElem (.plain ts))) acc =
      acc ++ l.map (fun e => (e.name, e.applyElem (.plain ts))) := by
  induction l generalizing acc with
  | nil => simp
  | cons x xs ih =>
    simp only [List.foldl_cons]
    rw [updateAssoc_not_mem _ _ _ (hd x (List.mem_cons_self x xs))]
    rw [ih (acc ++ [(x.name, x.applyElem (.plain ts))]) ?_ (List.nodup_cons.mp hn).2]
    · simp
    · intro e he
      simp only [List.map_append, List.mem_append, List.map_cons, List.map_nil,
        List.mem_singleton]
      rintro (h1 | h2)
      · exact hd e (List.mem_cons_of_mem _ he) h1
      · exact (List.nodup_cons.mp hn).1
          (List.mem_map.mpr ⟨e, he, h2⟩)

/-- Claim C4: `TextStim.extract` over a non-empty extractor list
applies each extractor to the stimulus and keys the results by
extractor name, but the returned `Value` carries the **last**
extractor of the list as its extractor identity (the loop variable
after the loop); with pairwise-distinct names `vals` holds exactly
one entry per extractor, in order. -/
theorem TextStim_extract_uses_last_extractor (ts : TextStim)
    (extractors : List Extractor) (v : Value)
    (h : TextStim.extract ts extractors = .ok v) :
    some v.extractor = extractors.getLast? ∧
    v.stim = ts ∧
    (∀ e ∈ extractors, e.name ∈ v.vals.map Prod.fst) ∧
    ((extractors.map (fun e => e.name)).Nodup →
      v.vals = extractors.map (fun e => (e.name, e.applyElem (.plain ts)))) := by
  unfold TextStim.extract at h
  cases hl : extractors.getLast? with
  | none => rw [hl] at h; cases h
  | some e =>
    rw [hl] at h
    cases h
    refine ⟨rfl, rfl, ?_, ?_⟩
    · exact keys_foldl_updateAssoc ts extractors []
    · intro hn
      simpa using foldl_updateAssoc_nodup ts extractors [] (by simp) hn

/-- Witness for C4 at a two-extractor list: the `Value`'s extractor
identity is the last extractor `exB`. -/
theorem TextStim_extract_uses_last_extractor_witness :
    some (Value.mk ⟨.str "t"⟩ exB [("a", "1"), ("b", "2")]).extractor =
      [exA, exB].getLast? :=
  (TextStim_extract_uses_last_extractor ⟨.str "t"⟩ [exA, exB]
    ⟨⟨.str "t"⟩, exB, [("a", "1"), ("b", "2")]⟩ rfl).1

/-! ### Lemmas about `ComplexTextStim.extract` on plain elements -/

theorem elemLoop_plain_head_error (merge : Bool) (ext : Extractor)
    (tl : Timeline) (ts : TextStim) (rest : List Elem) :
    elemLoop merge ext tl (Elem.plain ts :: rest) =
      .error (.attributeError "onset") := rfl

theorem extractStep_plain_error (self : ComplexTextStim) (merge : Bool)
    (tl : Timeline) (ext : Extractor)
    (hne : self.elements ≠ [])
    (hplain : ∀ e ∈ self.elements, ∃ ts, e = Elem.plain ts)
    (hext : ext.targetName ≠ "ComplexTextStim") :
    extractStep self merge tl ext = .error (.attributeError "onset") := by
  unfold extractStep
  rw [if_neg hext]
  cases hel : self.elements with
  | nil => exact absurd hel hne
  | cons e es =>
    obtain ⟨ts, rfl⟩ := hplain e (hel ▸ List.mem_cons_self e es)
    exact elemLoop_plain_head_error merge ext tl ts es

/-- Claim C10 (amended): for every **non-empty** collection whose
elements are all plain `TextStim`s (as `from_text` builds), `extract`
with at least one element-level extractor fails with
`AttributeError`, because the element-level branch unconditionally
reads `elem.onset` and a plain `TextStim` never defines that
attribute.  (An empty collection never enters the element loop and
succeeds — see the counterexample.) -/
theorem extract_plain_elements_attribute_error (cts : ComplexTextStim)
    (extractors : List Extractor) (merge : Bool)
    (hne : cts.elements ≠ [])
    (hplain : ∀ e ∈ cts.elements, ∃ ts, e = Elem.plain ts)
    (hext : ∃ ext ∈ extractors, ext.targetName ≠ "ComplexTextStim") :
    ComplexTextStim.extract cts extractors merge =
      .error (.attributeError "onset") := by
  unfold ComplexTextStim.extract
  suffices h : ∀ (l : List Extractor),
      (∃ ext ∈ l, ext.targetName ≠ "ComplexTextStim") →
      ∀ tl : Timeline, runExtractors cts merge tl l =
        .error (.attributeError "onset") from h extractors hext ⟨[]⟩
  intro l
  induction l with
  | nil =>
    rintro ⟨ext, hmem, -⟩
    simp at hmem
  | cons x xs ih =>
    rintro ⟨ext, hmem, hn⟩ tl
    unfold runExtractors
    by_cases hx : x.targetName = "ComplexTextStim"
    · have hstep : extractStep cts merge tl x =
          .ok ((x.applyColl cts).foldl (fun t ev => t.add_event ev merge) tl) := by
        unfold extractStep; rw [if_pos hx]
      rw [hstep]
      rcases List.mem_cons.mp hmem with rfl | h2
      · exact absurd hx hn
      · exact ih ⟨ext, h2, hn⟩ _
    · rw [extractStep_plain_error cts merge tl x hne hplain hx]

/-- Counterexample to C10 as stated: the claim quantifies over
*every* collection of plain elements, but an *empty* collection (all
of whose elements are vacuously plain, and which `from_text` builds
from a tokenless text) never enters the element loop: `extract` with
an element-level extractor succeeds, returning an empty timeline. -/
theorem extract_empty_collection_succeeds :
    ComplexTextStim.extract ⟨[]⟩ [elemExtractor] true = .ok ⟨[]⟩ := rfl

/-- Witness for the amended C10: a one-element plain collection with
one element-level extractor fails with `AttributeError` on
`onset`. -/
theorem extract_plain_elements_attribute_error_witness :
    ComplexTextStim.extract ⟨[.plain ⟨.str "hi"⟩]⟩ [elemExtractor] true =
      .error (.attributeError "onset") :=
  extract_plain_elements_attribute_error ⟨[.plain ⟨.str "hi"⟩]⟩ [elemExtractor]
    true (by simp)
    (by intro e he; simp at he; subst he; exact ⟨_, rfl⟩)
    ⟨elemExtractor, by simp, by decide⟩

/-- Claim C7: `from_text` with no explicit tokenizer and `nltk`
unavailable falls back to the built-in regex tokenizer when
`unit = 'word'`, and fails with the `ImportError` for any other
unit. -/
theorem from_text_no_nltk (findall : String → String → List String)
    (text unit language : String) :
    from_text findall Option.none text unit Option.none language =
      if unit = "word" then
        .ok ⟨(fallbackTokens text).map (fun t => .plain ⟨.str t⟩)⟩
      else .error (.importError importMsg) := by
  by_cases h : unit = "word" <;> simp [from_text, tryBody, h]

/-- Claim C8: `from_text` with a pattern-string tokenizer builds one
plain, timing-free `TextElement` per `re.findall` match of the
pattern against the text, in match order, in a fresh collection —
deterministically, as a function of its arguments. -/
theorem from_text_pattern_tokens (findall : String → String → List String)
    (nltk : Option Nltk) (text unit p language : String) :
    from_text findall nltk text unit (some (.pattern p)) language =
      .ok ⟨(findall p text).map (fun t => .plain ⟨.str t⟩)⟩ := rfl

/-! ### Lemmas for column resolution and row order -/

theorem resolveNames_valid (columns : List Char)
    (hc : ∀ c ∈ columns, c = 't' ∨ c = 'o' ∨ c = 'd') :
    resolveNames columns = .ok (columns.map fun c =>
      if c = 't' then "text" else if c = 'o' then "onset" else "duration") := by
  induction columns with
  | nil => rfl
  | cons c cs ih =>
    have hcs := ih fun x hx => hc x (List.mem_cons_of_mem _ hx)
    rcases hc c (List.mem_cons_self _ _) with rfl | rfl | rfl <;>
      simp [resolveNames, todName, hcs]

theorem resolveNames_length :
    ∀ (cs : List Char) (ns : List String),
    resolveNames cs = .ok ns → ns.length = cs.length := by
  intro cs
  induction cs with
  | nil => intro ns h; cases h; rfl
  | cons c cs ih =>
    intro ns h
    unfold resolveNames at h
    split at h
    · cases h
    · split at h
      · cases h
      · next ns2 h2 =>
        cases h
        simp [ih ns2 h2]

theorem tableRows_length (ns : List String) (nidx : Nat) :
    ∀ (rows : List (List String)) (i : Nat),
    (tableRows ns nidx i rows).length = rows.length := by
  intro rows
  induction rows with
  | nil => intro i; rfl
  | cons cells rest ih => intro i; simp [tableRows, ih (i + 1)]

theorem tableRows_label_pos (ns : List String) :
    ∀ (rows : List (List String)) (i j : Nat)
      (hj : j < (tableRows ns 0 i rows).length),
    ((tableRows ns 0 i rows).get ⟨j, hj⟩).label = .pos (i + j) := by
  intro rows
  induction rows with
  | nil => intro i j hj; simp [tableRows] at hj
  | cons cells rest ih =>
    intro i j hj
    cases j with
    | zero => rfl
    | succ j2 =>
      have := ih (i + 1) j2 (by simpa [tableRows] using hj)
      simp only [tableRows, List.get_cons_succ]
      rw [this]
      congr 1
      omega

theorem tableRows_label_pos2 (ns : List String) (nidx : Nat) (h0 : nidx = 0)
    (rows : List (List String)) (i j : Nat)
    (hj : j < (tableRows ns nidx i rows).length) :
    ((tableRows ns nidx i rows).get ⟨j, hj⟩).label = .pos (i + j) := by
  subst h0
  exact tableRows_label_pos ns rows i j hj

theorem tableRows_zip (ns : List String) :
    ∀ (rows : List (List String)) (i : Nat),
    (∀ row ∈ rows, row.length = ns.length) →
    tableRows ns 0 i rows =
      (rows.enumFrom i).map fun p => ⟨.pos p.1, ns.zip (p.2.map parseCell)⟩ := by
  intro rows
  induction rows with
  | nil => intro i _; rfl
  | cons cells rest ih =>
    intro i hw
    have h1 : cells.length = ns.length := hw cells (List.mem_cons_self _ _)
    simp only [tableRows, List.enumFrom, List.map_cons]
    rw [ih (i + 1) fun row hr => hw row (List.mem_cons_of_mem _ hr)]
    simp [rowOf, labelOf, padCells, h1]

/-- Claim C5 (amended): in `_from_file`, when a tab-separated token
of the file's first line is one of the reserved names `text`,
`onset`, `duration`, the column names are inferred from that header
line and `columns` is ignored (any two column specs give the same
result, and the data rows are the remaining lines keyed by the header
tokens, with wider rows' leading extras promoted to the index);
otherwise, **when every row has exactly as many fields as `columns`
has characters**, each character `t`/`o`/`d` names the corresponding
file column `text`/`onset`/`duration` positionally and every line is
a data row labelled by its position.  (When rows are wider, pandas
attaches the names to the trailing columns and promotes the leading
extras to the index — see the counterexample.) -/
theorem from_file_column_resolution (fs : FS) (d : Option Rat)
    (hdr : List String) (rest : List (List String)) (columns c2 : List Char) :
    (firstRowHasReserved (hdr :: rest) = true →
      from_file fs (hdr :: rest) columns d = from_file fs (hdr :: rest) c2 d ∧
      from_file fs (hdr :: rest) columns d =
        elemsOfRows fs d
          (tableRows hdr (firstWidth rest hdr.length - hdr.length) 0 rest)) ∧
    (firstRowHasReserved (hdr :: rest) = false →
      (∀ c ∈ columns, c = 't' ∨ c = 'o' ∨ c = 'd') →
      (∀ row ∈ hdr :: rest, row.length = columns.length) →
      from_file fs (hdr :: rest) columns d =
        elemsOfRows fs d ((hdr :: rest).enum.map fun p =>
          ⟨.pos p.1, (columns.map fun c =>
            if c = 't' then "text" else if c = 'o' then "onset"
            else "duration").zip (p.2.map parseCell)⟩)) := by
  constructor
  · intro h
    refine ⟨by simp [from_file, h], ?_⟩
    simp only [from_file, h, if_true, elemsOfRows, parseTable]
    cases hb : buildElems fs d
        (tableRows hdr (firstWidth rest hdr.length - hdr.length) 0 rest) <;>
      simp [hb, Except.map]
  · intro h hc hw
    have hns : (columns.map fun c =>
        if c = 't' then "text" else if c = 'o' then "onset"
        else "duration").length = columns.length := List.length_map _ _
    have hw0 : firstWidth (hdr :: rest) (columns.map fun c =>
        if c = 't' then "text" else if c = 'o' then "onset"
        else "duration").length - (columns.map fun c =>
        if c = 't' then "text" else if c = 'o' then "onset"
        else "duration").length = 0 := by
      simp only [firstWidth, hns, hw hdr (List.mem_cons_self _ _)]
      omega
    have hzip := tableRows_zip (columns.map fun c =>
        if c = 't' then "text" else if c = 'o' then "onset"
        else "duration") (hdr :: rest) 0
      (by intro row hr; rw [hns]; exact hw row hr)
    simp only [from_file, h, Bool.false_eq_true, if_false,
      resolveNames_valid columns hc, elemsOfRows, parseTable, hw0, hzip,
      List.enum]
    cases hb : buildElems fs d (((hdr :: rest).enumFrom 0).map fun p =>
        ⟨.pos p.1, (columns.map fun c =>
          if c = 't' then "text" else if c = 'o' then "onset"
          else "duration").zip (p.2.map parseCell)⟩) <;>
      simp [hb, Except.map]

/-- Counterexample to C5 as stated: a headerless file wider than the
column spec.  With `columns = 'to'` and the three-field row
`w, hello, x`, pandas promotes the leading column to the index, so
`text` names the *second* column (`hello`) and `onset` the third —
not the first and second positionally: the result differs from the
positional interpretation, under which `text` would be `w`. -/
theorem from_file_wide_not_positional :
    from_file fsEmpty [["w", "hello", "x"]] ['t', 'o'] Option.none =
      .ok ⟨[.dyn ⟨.str "hello", .val (.str "w"), .str "x", .none⟩]⟩ ∧
    from_file fsEmpty [["w", "hello", "x"]] ['t', 'o'] Option.none ≠
      elemsOfRows fsEmpty Option.none
        [⟨.pos 0, [("text", .str "w"), ("onset", .str "hello")]⟩] := by
  refine ⟨rfl, ?_⟩
  decide

/-- Witness for the amended C5: with a `text` header the column spec
is ignored (`t` and `ot` agree), and without one a file whose rows
are exactly as wide as the spec is named positionally. -/
theorem from_file_column_resolution_witness :
    from_file fsHello [["text"], ["hello"]] ['t'] Option.none =
      from_file fsHello [["text"], ["hello"]] ['o', 't'] Option.none ∧
    from_file fsEmpty [["word", "0.5", ""]] ['t', 'o', 'd'] Option.none =
      elemsOfRows fsEmpty Option.none ([["word", "0.5", ""]].enum.map fun p =>
        ⟨.pos p.1, (['t', 'o', 'd'].map fun c =>
          if c = 't' then "text" else if c = 'o' then "onset"
          else "duration").zip (p.2.map parseCell)⟩) :=
  ⟨((from_file_column_resolution fsHello Option.none ["text"] [["hello"]]
      ['t'] ['o', 't']).1 (by decide)).1,
   (from_file_column_resolution fsEmpty Option.none ["word", "0.5", ""] []
      ['t', 'o', 'd'] ['t', 'o', 'd']).2 (by decide) (by decide) (by decide)⟩

theorem rowToElem_dyn_order (fs : FS) (d : Option Rat) (i : PyLabel) (r : Row)
    (dd : DynamicTextStim) (h : rowToElem fs d i r = .ok (.dyn dd)) :
    dd.order = i := by
  unfold rowToElem at h
  split at h
  · cases h
  · split at h
    · cases hi : TextStim.init fs _ .none with
      | error e => rw [hi] at h; simp [Except.map] at h
      | ok ts => rw [hi] at h; simp [Except.map] at h
    · simp only [Except.ok.injEq, Elem.dyn.injEq] at h
      rw [← h]

theorem buildElems_ok_length (fs : FS) (d : Option Rat) :
    ∀ (rows : List Row) (es : List Elem),
    buildElems fs d rows = .ok es → es.length = rows.length := by
  intro rows
  induction rows with
  | nil => intro es h; cases h; rfl
  | cons r rs ih =>
    intro es h
    unfold buildElems at h
    cases h1 : rowToElem fs d r.label r with
    | error e => rw [h1] at h; cases h
    | ok e =>
      rw [h1] at h
      cases h2 : buildElems fs d rs with
      | error err => rw [h2] at h; cases h
      | ok es2 =>
        rw [h2] at h
        cases h
        simp [ih es2 h2]

theorem buildElems_ok_label (fs : FS) (d : Option Rat) :
    ∀ (rows : List Row) (es : List Elem),
    buildElems fs d rows = .ok es →
    ∀ (j : Nat) (hj : j < es.length) (hj2 : j < rows.length)
      (dd : DynamicTextStim),
      es.get ⟨j, hj⟩ = .dyn dd → dd.order = (rows.get ⟨j, hj2⟩).label := by
  intro rows
  induction rows with
  | nil =>
    intro es h
    cases h
    intro j hj
    simp at hj
  | cons r rs ih =>
    intro es h
    unfold buildElems at h
    cases h1 : rowToElem fs d r.label r with
    | error e => rw [h1] at h; cases h
    | ok e =>
      rw [h1] at h
      cases h2 : buildElems fs d rs with
      | error err => rw [h2] at h; cases h
      | ok es2 =>
        rw [h2] at h
        cases h
        intro j hj hj2 dd hdd
        cases j with
        | zero =>
          have he : e = .dyn dd := hdd
          exact rowToElem_dyn_order fs d r.label r dd (by rw [← he]; exact h1)
        | succ j2 =>
          exact ih es2 h2 j2 (by simpa using hj) (by simpa using hj2) dd
            (by simpa using hdd)

/-- Claim C6 (amended): when `_from_file` returns a collection, it
has exactly one element per data row of the file, appended in
file-row order; and **when the parse promotes no column to the
index** (the data rows are no wider than the column names), every
dynamic element at position `i` has `order = .pos i`, the row index.
(When rows are wider, `iterrows` yields the promoted leading cells as
labels and `order` stores those instead — see the counterexample.) -/
theorem from_file_row_order (fs : FS) (file : List (List String))
    (columns : List Char) (d : Option Rat) (cts : ComplexTextStim)
    (h : from_file fs file columns d = .ok cts) :
    cts.elements.length = numDataRows file ∧
    (noIndexPromotion file columns = true →
      ∀ (i : Nat) (hi : i < cts.elements.length) (dd : DynamicTextStim),
        cts.elements.get ⟨i, hi⟩ = .dyn dd → dd.order = .pos i) := by
  unfold from_file at h
  by_cases hh : firstRowHasReserved file = true
  · simp only [hh, if_true] at h
    split at h
    · cases h
    · next es hb =>
      cases h
      cases file with
      | nil => simp [firstRowHasReserved] at hh
      | cons hdr rest =>
        constructor
        · rw [buildElems_ok_length fs d _ es hb, numDataRows, if_pos hh]
          simp [parseTable, tableRows_length]
        · intro hnp i hi dd hdd
          simp only [noIndexPromotion, hh, if_true, decide_eq_true_eq] at hnp
          have hsub : firstWidth rest hdr.length - hdr.length = 0 :=
            Nat.sub_eq_zero_of_le hnp
          have hlen := buildElems_ok_length fs d _ es hb
          have hi2 : i < (parseTable (hdr :: rest) Option.none).length := by
            rw [← hlen]; exact hi
          have hlab := buildElems_ok_label fs d _ es hb i hi hi2 dd hdd
          rw [hlab]
          show ((tableRows hdr (firstWidth rest hdr.length - hdr.length)
            0 rest).get ⟨i, hi2⟩).label = .pos i
          simpa using tableRows_label_pos2 hdr _ hsub rest 0 i hi2
  · rw [Bool.not_eq_true] at hh
    simp only [hh, Bool.false_eq_true, if_false] at h
    split at h
    · cases h
    · next ns hr =>
      split at hr
      · cases hr
      · next ns2 hr2 =>
        injection hr with hr3
        subst hr3
        split at h
        · cases h
        · next es hb =>
          cases h
          constructor
          · rw [buildElems_ok_length fs d _ es hb, numDataRows, if_neg]
            · simp [parseTable, tableRows_length]
            · simp [hh]
          · intro hnp i hi dd hdd
            simp only [noIndexPromotion, hh, Bool.false_eq_true, if_false,
              decide_eq_true_eq] at hnp
            have hns : ns2.length = columns.length :=
              resolveNames_length columns ns2 hr2
            have hsub : firstWidth file ns2.length - ns2.length = 0 := by
              cases file with
              | nil => simp [firstWidth]
              | cons r0 r1 =>
                simp only [firstWidth] at hnp ⊢
                omega
            have hlen := buildElems_ok_length fs d _ es hb
            have hi2 : i < (parseTable file (some ns2)).length := by
              rw [← hlen]; exact hi
            have hlab := buildElems_ok_label fs d _ es hb i hi hi2 dd hdd
            rw [hlab]
            show ((tableRows ns2 (firstWidth file ns2.length - ns2.length)
              0 file).get ⟨i, hi2⟩).label = .pos i
            simpa using tableRows_label_pos2 ns2 _ hsub file 0 i hi2

/-- Counterexample to C6 as stated: a headerless four-field row under
the default three-character spec `tod`.  pandas promotes the leading
column to the index, `iterrows` yields its value `x` as the label,
and the element stores `order = x` — not the row index 0. -/
theorem from_file_wide_order_not_row_index :
    from_file fsEmpty [["x", "w", "y", "z"]] ['t', 'o', 'd'] Option.none =
      .ok ⟨[.dyn ⟨.str "w", .val (.str "x"), .str "y", .str "z"⟩]⟩ ∧
    PyLabel.val (.str "x") ≠ PyLabel.pos 0 := by
  refine ⟨rfl, ?_⟩
  decide

/-- Witness for the amended C6: a one-row headerless file as wide as
the spec yields one element, whose dynamic element at position 0 has
order `.pos 0`. -/
theorem from_file_row_order_witness :
    (ComplexTextStim.mk
      [.dyn ⟨.str "word", .pos 0, .str "x", .nan⟩]).elements.length =
      numDataRows [["word", "x", ""]] ∧
    (DynamicTextStim.mk (.str "word") (.pos 0) (.str "x") .nan).order =
      .pos 0 :=
  ⟨(from_file_row_order fsEmpty [["word", "x", ""]] ['t', 'o', 'd'] Option.none
      ⟨[.dyn ⟨.str "word", .pos 0, .str "x", .nan⟩]⟩ rfl).1,
   (from_file_row_order fsEmpty [["word", "x", ""]] ['t', 'o', 'd'] Option.none
      ⟨[.dyn ⟨.str "word", .pos 0, .str "x", .nan⟩]⟩ rfl).2 (by decide) 0
      (by decide) ⟨.str "word", .pos 0, .str "x", .nan⟩ rfl⟩

end Featurex
